import Mathlib

/-!
Verification of the Momentum timetable-ingestion pipeline.

Shallow embedding of two pieces of the repository:

* `parseOCRToTimetable` (client/src/lib/ocrUtils.ts): the heuristic line
  parser.  Its three regular expressions (`timePattern`, `dayPattern`,
  `roomPattern`), the noise filter `/header|table|schedule/i`, the
  line-splitting/trimming pipeline and the `Class N` title synthesis are
  embedded as executable functions on `List Char`, replicating the
  JavaScript regex engine's leftmost-match and backtracking behaviour for
  these specific patterns (all residual backtracking in these patterns is
  resolvable greedily because the relevant character classes are disjoint;
  the one exception, `\d+[a-z]?\b` in the room pattern, is encoded in
  `tailLetterB`).

* the POST `/api/ocr` route (server routes): zod validation of `imageData`,
  the OpenAI vision call outcome, the response-key probing chain
  `parsedResponse.entries || parsedResponse.timetable ||
  parsedResponse.schedule || parsedResponse.classes || []` (JavaScript
  truthiness, where an empty array is truthy), and the hardcoded six-entry
  fallback returned when anything in the try-block throws.
-/

/-- One schedule entry, with the fields in the order they are pushed by
`parseOCRToTimetable`. -/
structure Entry where
  title : String
  day : String
  startTime : String
  endTime : String
  location : String
deriving DecidableEq, Repr

/-- Builds an `Entry` with the field order used by the object literals in the
source (`{ day, startTime, endTime, title, location }`). -/
def mkEntry (day startTime endTime title location : String) : Entry :=
  ⟨title, day, startTime, endTime, location⟩

/-- Case-insensitive match of a text char against a lowercase ASCII pattern
char, as the `/i` flag canonicalises ASCII letters. -/
def eqi (c w : Char) : Bool := c.toLower == w

/-- JavaScript `\s` (the WhiteSpace and LineTerminator productions). -/
def isJsSpace (c : Char) : Bool :=
  c == ' ' || c == '\t' || c == '\n' || c == '\r' || c == '\x0b' || c == '\x0c' ||
  c == '\u00A0' || c == '\uFEFF' || c == '\u1680' ||
  (0x2000 ≤ c.toNat && c.toNat ≤ 0x200A) ||
  c == '\u2028' || c == '\u2029' || c == '\u202F' || c == '\u205F' || c == '\u3000'

/-- JavaScript word character `[A-Za-z0-9_]`, used by `\b`. -/
def isWordChar (c : Char) : Bool :=
  ('a' ≤ c && c ≤ 'z') || ('A' ≤ c && c ≤ 'Z') || ('0' ≤ c && c ≤ '9') || c == '_'

/-- `[a-z]` under the `/i` flag. -/
def isAsciiLetter (c : Char) : Bool := ('a' ≤ c && c ≤ 'z') || ('A' ≤ c && c ≤ 'Z')

/-- JavaScript `String.prototype.trim` on a char list. -/
def jsTrimList (cs : List Char) : List Char :=
  (((cs.dropWhile isJsSpace).reverse).dropWhile isJsSpace).reverse

/-- JavaScript `String.prototype.trim`. -/
def jsTrim (s : String) : String := String.mk (jsTrimList s.data)

/-- One-digit-hour half of `\d{1,2}:\d{2}`: tried after the greedy two-digit
attempt fails. -/
def oneDigitTok (cs : List Char) : Option (List Char × List Char) :=
  match cs with
  | d1 :: ':' :: m1 :: m2 :: rest =>
      if d1.isDigit && m1.isDigit && m2.isDigit then some ([d1, ':', m1, m2], rest)
      else none
  | _ => none

/-- `\d{1,2}:\d{2}` at the head of the input, hour digits matched greedily
(two digits first, then one), as the backtracking engine does. -/
def timeTokenAt (cs : List Char) : Option (List Char × List Char) :=
  match cs with
  | d1 :: d2 :: ':' :: m1 :: m2 :: rest =>
      if d1.isDigit && d2.isDigit && m1.isDigit && m2.isDigit then
        some ([d1, d2, ':', m1, m2], rest)
      else oneDigitTok cs
  | _ => oneDigitTok cs

/-- `(?:AM|PM)?` under `/i`.  Taking the suffix when present is equivalent to
full backtracking here because a skipped `A`/`P` can never be matched by the
following space or connector classes. -/
def takeAmPm (cs : List Char) : List Char × List Char :=
  match cs with
  | a :: m :: rest =>
      if (eqi a 'a' || eqi a 'p') && eqi m 'm' then ([a, m], rest) else ([], a :: m :: rest)
  | _ => ([], cs)

/-- The character class `[-–—to]` under `/i`. -/
def connectorChar (c : Char) : Bool :=
  c == '-' || c == '\u2013' || c == '\u2014' || eqi c 't' || eqi c 'o'

/-- `[-–—to]+`: one or more connector characters, greedily. -/
def takeConnector (cs : List Char) : Option (List Char × List Char) :=
  match List.span connectorChar cs with
  | (t, r) => if t.isEmpty then none else some (t, r)

/-- A match of `timePattern`: both captured time tokens and the total length
of the matched substring. -/
structure TimeM where
  s1 : List Char
  s2 : List Char
  len : Nat
deriving DecidableEq, Repr

/-- `timePattern` anchored at the head of the input:
`(\d{1,2}:\d{2})\s*(?:AM|PM)?\s*[-–—to]+\s*(\d{1,2}:\d{2})\s*(?:AM|PM)?` with
the `/i` flag. -/
def matchTimeAt (cs : List Char) : Option TimeM :=
  match timeTokenAt cs with
  | none => none
  | some (t1, r1) =>
    let p1 := List.span isJsSpace r1
    let p2 := takeAmPm p1.2
    let p3 := List.span isJsSpace p2.2
    match takeConnector p3.2 with
    | none => none
    | some (cn, r4) =>
      let p5 := List.span isJsSpace r4
      match timeTokenAt p5.2 with
      | none => none
      | some (t2, r6) =>
        let p7 := List.span isJsSpace r6
        let p8 := takeAmPm p7.2
        some ⟨t1, t2, t1.length + p1.1.length + p2.1.length + p3.1.length + cn.length +
                p5.1.length + t2.length + p7.1.length + p8.1.length⟩

/-- Leftmost `timePattern` match: the engine tries every start position from
the left, as `String.prototype.match` does for a non-global regex. -/
def findTimeAux : List Char → Option (Nat × TimeM)
  | [] => none
  | c :: cs =>
    match matchTimeAt (c :: cs) with
    | some tm => some (0, tm)
    | none =>
      match findTimeAux cs with
      | some (i, tm) => some (i + 1, tm)
      | none => none

/-- Removes `len` characters starting at index `i`: the effect of
`String.prototype.replace` with an empty replacement on a non-global regex. -/
def deleteRange (cs : List Char) (i len : Nat) : List Char :=
  cs.take i ++ cs.drop (i + len)

/-- `line.replace(timePattern, '')`. -/
def replaceTime (cs : List Char) : List Char :=
  match findTimeAux cs with
  | some (i, tm) => deleteRange cs i tm.len
  | none => cs

/-- Case-insensitive literal-word match at the head of the input; returns the
consumed original-case characters and the rest. -/
def matchWordAt : List Char → List Char → Option (List Char × List Char)
  | [], cs => some ([], cs)
  | _ :: _, [] => none
  | w :: ws, c :: cs =>
    if eqi c w then
      match matchWordAt ws cs with
      | some (o, r) => some (c :: o, r)
      | none => none
    else none

/-- `\b` between the end of a match and the rest of the input, when the match
ends in a word character. -/
def boundaryAfter : List Char → Bool
  | [] => true
  | c :: _ => !(isWordChar c)

/-- `\b` before a match starting with a word character: the previous character
(if any) must not be a word character. -/
def boundaryPrev : Option Char → Bool
  | none => true
  | some c => !(isWordChar c)

/-- The alternatives of `dayPattern`, in source order. -/
def dayLowerNames : List (List Char) :=
  ["monday".data, "tuesday".data, "wednesday".data, "thursday".data, "friday".data,
   "saturday".data, "sunday".data]

/-- One weekday alternative followed by `\b`. -/
def dayWordAt (nm : List Char) (cs : List Char) : Option (List Char) :=
  match matchWordAt nm cs with
  | some (o, r) => if boundaryAfter r then some o else none
  | none => none

/-- The alternation of `dayPattern`, tried in source order (the alternatives
are pairwise exclusive at any position). -/
def firstDayMatch : List (List Char) → List Char → Option (List Char)
  | [], _ => none
  | nm :: nms, cs =>
    match dayWordAt nm cs with
    | some o => some o
    | none => firstDayMatch nms cs

/-- `dayPattern` anchored at the head of the input (initial `\b` checked by
the caller). -/
def dayHereAt (cs : List Char) : Option (List Char) := firstDayMatch dayLowerNames cs

/-- Leftmost `dayPattern` match, scanning with the previous character
available for the leading `\b`. -/
def findDayAux : Option Char → List Char → Option (Nat × List Char)
  | _, [] => none
  | prev, c :: cs =>
    match (if boundaryPrev prev then dayHereAt (c :: cs) else none) with
    | some o => some (0, o)
    | none =>
      match findDayAux (some c) cs with
      | some (i, o) => some (i + 1, o)
      | none => none

/-- `dayMatch[1].charAt(0).toUpperCase() + dayMatch[1].slice(1).toLowerCase()`. -/
def dayRecase : List Char → List Char
  | [] => []
  | c :: cs => c.toUpper :: cs.map Char.toLower

/-- `line.replace(dayPattern, '')`. -/
def replaceDay (cs : List Char) : List Char :=
  match findDayAux none cs with
  | some (i, o) => deleteRange cs i o.length
  | none => cs

/-- The keyword alternatives of `roomPattern`, in source order. -/
def roomWords : List (List Char) := ["room".data, "lab".data, "hall".data, "lecture".data]

/-- The keyword alternation of `roomPattern` (alternatives pairwise exclusive
at any position). -/
def firstWordMatch : List (List Char) → List Char → Option (List Char × List Char)
  | [], _ => none
  | w :: ws, cs =>
    match matchWordAt w cs with
    | some (o, r) => some (o, r)
    | none => firstWordMatch ws cs

/-- The trailing `[a-z]?\b` of `roomPattern` after the greedy `\d+`: a
following letter is kept only if a word boundary follows it; a following word
character with no such boundary makes the whole match fail (shrinking `\d+`
always leaves a word-word position, so no backtracking can succeed). -/
def tailLetterB : List Char → Option (List Char)
  | [] => some []
  | c :: cs =>
    if isAsciiLetter c then
      match cs with
      | [] => some [c]
      | d :: _ => if isWordChar d then none else some [c]
    else if isWordChar c then none
    else some []

/-- `roomPattern` anchored at the head of the input (initial `\b` checked by
the caller):
`\b(?:room|lab|hall|lecture)\s*[a-z]?[-\s]?(\d+[a-z]?)\b` with `/i`.
Returns the full matched substring (`roomMatch[0]`). -/
def roomHereAt (cs : List Char) : Option (List Char) :=
  match firstWordMatch roomWords cs with
  | none => none
  | some (kw, r1) =>
    let p1 := List.span isJsSpace r1
    let p2 : List Char × List Char :=
      match p1.2 with
      | c :: rest => if isAsciiLetter c then ([c], rest) else ([], p1.2)
      | [] => ([], [])
    let p3 : List Char × List Char :=
      match p2.2 with
      | c :: rest => if c == '-' || isJsSpace c then ([c], rest) else ([], p2.2)
      | [] => ([], [])
    let p4 := List.span Char.isDigit p3.2
    if p4.1.isEmpty then none
    else
      match tailLetterB p4.2 with
      | none => none
      | some extra => some (kw ++ p1.1 ++ p2.1 ++ p3.1 ++ p4.1 ++ extra)

/-- Leftmost `roomPattern` match. -/
def findRoomAux : Option Char → List Char → Option (Nat × List Char)
  | _, [] => none
  | prev, c :: cs =>
    match (if boundaryPrev prev then roomHereAt (c :: cs) else none) with
    | some o => some (0, o)
    | none =>
      match findRoomAux (some c) cs with
      | some (i, o) => some (i + 1, o)
      | none => none

/-- `line.replace(roomPattern, '')`. -/
def replaceRoom (cs : List Char) : List Char :=
  match findRoomAux none cs with
  | some (i, o) => deleteRange cs i o.length
  | none => cs

/-- Case-insensitive "starts with". -/
def startsWithI : List Char → List Char → Bool
  | [], _ => true
  | _ :: _, [] => false
  | w :: ws, c :: cs => eqi c w && startsWithI ws cs

/-- Case-insensitive substring test. -/
def hasSubstrI (w : List Char) : List Char → Bool
  | [] => startsWithI w []
  | c :: cs => startsWithI w (c :: cs) || hasSubstrI w cs

/-- `/header|table|schedule/i.test(line)`. -/
def containsNoise (cs : List Char) : Bool :=
  hasSubstrI "header".data cs || hasSubstrI "table".data cs || hasSubstrI "schedule".data cs

/-- The title remainder:
`line.replace(timePattern, '').replace(dayPattern, '').replace(roomPattern, '').trim()`. -/
def residualTitle (cs : List Char) : List Char :=
  jsTrimList (replaceRoom (replaceDay (replaceTime cs)))

/-- The body of the `lines.forEach` callback in `parseOCRToTimetable`:
`count` is `entries.length` at the time the line is processed. -/
def processLine (line : String) (count : Nat) : Option Entry :=
  if line.length < 5 || containsNoise line.data then none
  else
    match findTimeAux line.data with
    | none => none
    | some (_, tm) =>
      let day := match findDayAux none line.data with
        | some (_, o) => String.mk (dayRecase o)
        | none => "Monday"
      let location := match findRoomAux none line.data with
        | some (_, o) => String.mk o
        | none => ""
      let rest := residualTitle line.data
      let title := if rest.isEmpty then "Class " ++ toString (count + 1) else String.mk rest
      some ⟨title, day, String.mk tm.s1, String.mk tm.s2, location⟩

/-- Accumulates one line's result onto the entry batch. -/
def stepEntry (acc : List Entry) (line : String) : List Entry :=
  match processLine line acc.length with
  | some e => acc ++ [e]
  | none => acc

/-- JavaScript `split('\n')` (keeps empty pieces, including a trailing one). -/
def splitOnNewline : List Char → List (List Char)
  | [] => [[]]
  | c :: cs =>
    if c == '\n' then [] :: splitOnNewline cs
    else
      match splitOnNewline cs with
      | h :: t => (c :: h) :: t
      | [] => [[c]]

/-- `ocrText.split('\n').map(line => line.trim()).filter(Boolean)`. -/
def normalizeLines (s : String) : List String :=
  (((splitOnNewline s.data).map (fun cs => String.mk (jsTrimList cs)))).filter
    (fun l => !(l == ""))

/-- `parseOCRToTimetable` from client/src/lib/ocrUtils.ts. -/
def parseOCRToTimetable (ocrText : String) : List Entry :=
  (normalizeLines ocrText).foldl stepEntry []

/-- A JSON value as handled by the route after `JSON.parse`.  The route never
inspects array elements, so arrays are modelled as lists of entry records;
`objv` stands for any non-array object. -/
inductive JSVal where
  | arr (es : List Entry)
  | str (s : String)
  | num (n : Int)
  | boolv (b : Bool)
  | nullv
  | objv
deriving DecidableEq, Repr

/-- JavaScript truthiness of a JSON value: every object — including the empty
array — is truthy. -/
def truthy : JSVal → Bool
  | .arr _ => true
  | .str s => !(s == "")
  | .num n => !(n == 0)
  | .boolv b => b
  | .nullv => false
  | .objv => true

/-- Property access `parsedResponse[k]`: `none` models `undefined`.  For
duplicate keys the last binding wins, as with `JSON.parse`. -/
def jsGet (fields : List (String × JSVal)) (k : String) : Option JSVal :=
  ((fields.reverse).find? (fun p => p.fst == k)).map (fun p => p.snd)

/-- One step of the `||` chain: a missing or falsy left operand falls through
to the right operand. -/
def jsOrElse (a : Option JSVal) (b : JSVal) : JSVal :=
  match a with
  | some v => if truthy v then v else b
  | none => b

/-- `parsedResponse.entries || parsedResponse.timetable ||
parsedResponse.schedule || parsedResponse.classes || []`. -/
def selectResult (fields : List (String × JSVal)) : JSVal :=
  jsOrElse (jsGet fields "entries")
    (jsOrElse (jsGet fields "timetable")
      (jsOrElse (jsGet fields "schedule")
        (jsOrElse (jsGet fields "classes") (JSVal.arr []))))

/-- The hardcoded list returned by the route's catch block. -/
def fallbackEntries : List Entry :=
  [mkEntry "Monday" "09:00" "10:30" "Mathematics" "Room 101",
   mkEntry "Monday" "11:00" "12:30" "Physics" "Lab 3",
   mkEntry "Tuesday" "09:00" "10:30" "Computer Science" "Room 205",
   mkEntry "Wednesday" "13:00" "14:30" "Economics" "Hall B",
   mkEntry "Thursday" "15:00" "16:30" "History" "Room 110",
   mkEntry "Friday" "10:00" "11:30" "English Literature" "Room 302"]

/-- Outcome of the vision-service interaction inside the route's inner try
block.  The first three constructors are the ways that block can throw: the
OpenAI call itself failing, `response.choices[0].message.content` being
absent, and `JSON.parse(content)` throwing on invalid JSON. -/
inductive VisionOutcome where
  | apiError
  | noContent
  | badJson
  | parsed (fields : List (String × JSVal))

/-- The route's response: a zod rejection (HTTP 400) or a 200 payload whose
`result` field is `v`. -/
inductive RouteResponse where
  | badRequest
  | ok (result : JSVal)
deriving DecidableEq, Repr

/-- The POST `/api/ocr` handler: zod `imageData: z.string().min(1)`
validation, then the vision call; any throw inside the inner try block is
answered with the hardcoded fallback list. -/
def ocrRoute (imageData : String) (v : VisionOutcome) : RouteResponse :=
  if imageData.length < 1 then .badRequest
  else
    match v with
    | .parsed fields => .ok (selectResult fields)
    | _ => .ok (.arr fallbackEntries)

/-- The seven canonical title-cased weekday names. -/
def canonicalDays : List String :=
  ["Monday", "Tuesday", "Wednesday", "Thursday", "Friday", "Saturday", "Sunday"]

/-- A full-string match of `\d{1,2}:\d{2}`: the shape the parser's captured
time tokens actually have. -/
def looseL : List Char → Bool
  | [a, b, c, d, e] => a.isDigit && b.isDigit && c == ':' && d.isDigit && e.isDigit
  | [a, c, d, e] => a.isDigit && c == ':' && d.isDigit && e.isDigit
  | _ => false

/-- `looseL` on a string. -/
def looseTimeFormat (s : String) : Bool := looseL s.data

/-- The spec's claimed time format, as a full-string match of
`^[0-2]?[0-9]:[0-5][0-9]$` (spec-side definition, for comparison with what
the code produces). -/
def specTimeFormat (s : String) : Bool :=
  match s.data with
  | [a, b, c, d, e] =>
      ('0' ≤ a && a ≤ '2') && b.isDigit && c == ':' && ('0' ≤ d && d ≤ '5') && e.isDigit
  | [a, c, d, e] => a.isDigit && c == ':' && ('0' ≤ d && d ≤ '5') && e.isDigit
  | _ => false

/-- The spec's claimed batch invariant — canonical day, spec-format times,
non-empty title (spec-side definition). -/
def specEntryInvariant (e : Entry) : Bool :=
  canonicalDays.contains e.day && specTimeFormat e.startTime && specTimeFormat e.endTime &&
    !(e.title == "")

/-- The property the heuristic parser actually guarantees for each entry. -/
def goodEntry (e : Entry) : Prop :=
  e.day ∈ canonicalDays ∧ e.title ≠ "" ∧ looseTimeFormat e.startTime = true ∧
    looseTimeFormat e.endTime = true

/-- The `||` chain over an explicit list of lookups. -/
def chainSelect : List (Option JSVal) → JSVal
  | [] => .arr []
  | o :: os => jsOrElse o (chainSelect os)

/-- Truthiness of an optional value (`undefined` is falsy). -/
def truthyOpt : Option JSVal → Bool
  | some v => truthy v
  | none => false

/-- The recognised response keys, in the priority order the spec states. -/
def keysInOrder : List String := ["entries", "timetable", "schedule", "classes"]

/-- Spec-style characterisation of the key probing, with truthiness in place
of the spec's is-an-array test: pick the first key, in priority order, whose
value is present and truthy; default to an empty array. -/
def specSelect (fields : List (String × JSVal)) : JSVal :=
  match (keysInOrder.map (jsGet fields)).find? truthyOpt with
  | some (some v) => v
  | _ => .arr []

/-- Whether a JSON value is an array. -/
def isArr : JSVal → Bool
  | .arr _ => true
  | _ => false

theorem charToNat_ofNat_valid (n : Nat) (h : n < 55296) : (Char.ofNat n).toNat = n := by
  rw [Char.ofNat, dif_pos (Or.inl h)]
  rfl

theorem char_eq_ofNat_of_toNat (c : Char) (n : Nat) (h : c.toNat = n) : c = Char.ofNat n := by
  subst h
  exact (Char.ofNat_toNat c).symm

theorem toLower_eq_cases (c l : Char) (h97 : 97 ≤ l.toNat) (h122 : l.toNat ≤ 122)
    (h : c.toLower = l) : c = l ∨ c = Char.ofNat (l.toNat - 32) := by
  unfold Char.toLower at h
  by_cases hc : c.toNat ≥ 65 ∧ c.toNat ≤ 90
  · rw [if_pos hc] at h
    right
    have h2 := congrArg Char.toNat h
    rw [charToNat_ofNat_valid (c.toNat + 32) (by omega)] at h2
    exact char_eq_ofNat_of_toNat c (l.toNat - 32) (by omega)
  · rw [if_neg hc] at h
    exact Or.inl h

theorem toUpper_of_toLower (o l u : Char) (h : o.toLower = l)
    (h97 : 97 ≤ l.toNat) (h122 : l.toNat ≤ 122)
    (hu : Char.ofNat (l.toNat - 32) = u) (hul : u.toUpper = u) (hll : l.toUpper = u) :
    o.toUpper = u := by
  rcases toLower_eq_cases o l h97 h122 h with rfl | rfl
  · exact hll
  · rw [hu, hul]

theorem matchWordAt_lower : ∀ (ws cs o r : List Char),
    matchWordAt ws cs = some (o, r) → o.map Char.toLower = ws := by
  intro ws
  induction ws with
  | nil =>
    intro cs o r h
    unfold matchWordAt at h
    simp at h
    simp [h.1]
  | cons w ws ih =>
    intro cs o r h
    cases cs with
    | nil => simp [matchWordAt] at h
    | cons c cs =>
      unfold matchWordAt at h
      by_cases hc : eqi c w
      · rw [if_pos hc] at h
        cases hm : matchWordAt ws cs with
        | none => rw [hm] at h; simp at h
        | some pr =>
          rw [hm] at h
          cases pr with
          | mk o2 r2 =>
            simp at h
            have := ih cs o2 r2 hm
            rcases h with ⟨ho, _⟩
            subst ho
            simp [this]
            simpa [eqi] using hc
      · rw [if_neg hc] at h
        simp at h

theorem firstDayMatch_lower : ∀ (nms : List (List Char)) (cs o : List Char),
    firstDayMatch nms cs = some o → ∃ nm ∈ nms, o.map Char.toLower = nm := by
  intro nms
  induction nms with
  | nil => intro cs o h; simp [firstDayMatch] at h
  | cons nm nms ih =>
    intro cs o h
    unfold firstDayMatch at h
    cases hd : dayWordAt nm cs with
    | some o2 =>
      rw [hd] at h
      simp at h
      subst h
      unfold dayWordAt at hd
      cases hm : matchWordAt nm cs with
      | none => rw [hm] at hd; simp at hd
      | some pr =>
        rw [hm] at hd
        cases pr with
        | mk o3 r3 =>
          by_cases hb : boundaryAfter r3
          · simp [if_pos hb] at hd
            subst hd
            exact ⟨nm, List.mem_cons_self nm nms, matchWordAt_lower nm cs o3 r3 hm⟩
          · simp [if_neg hb] at hd
    | none =>
      rw [hd] at h
      rcases ih cs o h with ⟨nm2, hmem, hlow⟩
      exact ⟨nm2, List.mem_cons_of_mem nm hmem, hlow⟩

theorem dayRecase_eq (o : List Char) (l : Char) (ls : List Char) (u : Char)
    (h : o.map Char.toLower = l :: ls) (h97 : 97 ≤ l.toNat) (h122 : l.toNat ≤ 122)
    (hu : Char.ofNat (l.toNat - 32) = u) (hul : u.toUpper = u) (hll : l.toUpper = u) :
    dayRecase o = u :: ls := by
  cases o with
  | nil => simp at h
  | cons c cs =>
    simp at h
    rcases h with ⟨hc, hcs⟩
    show c.toUpper :: cs.map Char.toLower = u :: ls
    rw [hcs, toUpper_of_toLower c l u hc h97 h122 hu hul hll]

theorem dayHereAt_canonical (cs o : List Char) (h : dayHereAt cs = some o) :
    String.mk (dayRecase o) ∈ canonicalDays := by
  rcases firstDayMatch_lower dayLowerNames cs o h with ⟨nm, hmem, hlow⟩
  simp [dayLowerNames] at hmem
  rcases hmem with h1 | h1 | h1 | h1 | h1 | h1 | h1 <;> subst h1
  · rw [dayRecase_eq o 'm' "onday".data 'M' hlow (by decide) (by decide) (by decide)
      (by decide) (by decide)]
    simp [canonicalDays]
  · rw [dayRecase_eq o 't' "uesday".data 'T' hlow (by decide) (by decide) (by decide)
      (by decide) (by decide)]
    simp [canonicalDays]
  · rw [dayRecase_eq o 'w' "ednesday".data 'W' hlow (by decide) (by decide) (by decide)
      (by decide) (by decide)]
    simp [canonicalDays]
  · rw [dayRecase_eq o 't' "hursday".data 'T' hlow (by decide) (by decide) (by decide)
      (by decide) (by decide)]
    simp [canonicalDays]
  · rw [dayRecase_eq o 'f' "riday".data 'F' hlow (by decide) (by decide) (by decide)
      (by decide) (by decide)]
    simp [canonicalDays]
  · rw [dayRecase_eq o 's' "aturday".data 'S' hlow (by decide) (by decide) (by decide)
      (by decide) (by decide)]
    simp [canonicalDays]
  · rw [dayRecase_eq o 's' "unday".data 'S' hlow (by decide) (by decide) (by decide)
      (by decide) (by decide)]
    simp [canonicalDays]

theorem findDayAux_here : ∀ (cs : List Char) (prev : Option Char) (i : Nat) (o : List Char),
    findDayAux prev cs = some (i, o) → ∃ cs₂, dayHereAt cs₂ = some o := by
  intro cs
  induction cs with
  | nil => intro prev i o h; simp [findDayAux] at h
  | cons c cs ih =>
    intro prev i o h
    unfold findDayAux at h
    cases hh : (if boundaryPrev prev then dayHereAt (c :: cs) else none) with
    | some o2 =>
      rw [hh] at h
      simp at h
      by_cases hb : boundaryPrev prev
      · rw [if_pos hb] at hh
        exact ⟨c :: cs, by rw [hh, h.2]⟩
      · rw [if_neg hb] at hh; simp at hh
    | none =>
      rw [hh] at h
      cases hr : findDayAux (some c) cs with
      | none => rw [hr] at h; simp at h
      | some pr =>
        rw [hr] at h
        cases pr with
        | mk i2 o2 =>
          simp at h
          rcases ih (some c) i2 o2 hr with ⟨cs₂, hc2⟩
          exact ⟨cs₂, by rw [hc2, h.2]⟩

theorem oneDigitTok_shape : ∀ (cs t r : List Char),
    oneDigitTok cs = some (t, r) → looseL t = true := by
  intro cs t r h
  unfold oneDigitTok at h
  split at h
  · split at h
    · simp at h
      rcases h with ⟨ht, _⟩
      subst ht
      simp_all [looseL]
    · simp at h
  · simp at h

theorem timeTokenAt_shape : ∀ (cs t r : List Char),
    timeTokenAt cs = some (t, r) → looseL t = true := by
  intro cs t r h
  unfold timeTokenAt at h
  split at h
  · split at h
    · simp at h
      rcases h with ⟨ht, _⟩
      subst ht
      simp_all [looseL]
    · exact oneDigitTok_shape _ t r h
  · exact oneDigitTok_shape _ t r h

theorem matchTimeAt_shape : ∀ (cs : List Char) (tm : TimeM),
    matchTimeAt cs = some tm → looseL tm.s1 = true ∧ looseL tm.s2 = true := by
  intro cs tm h
  unfold matchTimeAt at h
  cases h1 : timeTokenAt cs with
  | none => rw [h1] at h; simp at h
  | some pr1 =>
    rw [h1] at h
    cases pr1 with
    | mk t1 r1 =>
      simp only at h
      cases h2 : takeConnector (List.span isJsSpace (takeAmPm (List.span isJsSpace r1).2).2).2 with
      | none => rw [h2] at h; simp at h
      | some pr2 =>
        rw [h2] at h
        cases pr2 with
        | mk cn r4 =>
          simp only at h
          cases h3 : timeTokenAt (List.span isJsSpace r4).2 with
          | none => rw [h3] at h; simp at h
          | some pr3 =>
            rw [h3] at h
            cases pr3 with
            | mk t2 r6 =>
              simp only at h
              have he := Option.some.inj h
              subst he
              exact ⟨timeTokenAt_shape _ t1 r1 h1, timeTokenAt_shape _ t2 r6 h3⟩

theorem findTimeAux_shape : ∀ (cs : List Char) (i : Nat) (tm : TimeM),
    findTimeAux cs = some (i, tm) → looseL tm.s1 = true ∧ looseL tm.s2 = true := by
  intro cs
  induction cs with
  | nil => intro i tm h; simp [findTimeAux] at h
  | cons c cs ih =>
    intro i tm h
    unfold findTimeAux at h
    cases h1 : matchTimeAt (c :: cs) with
    | some tm2 =>
      rw [h1] at h
      simp at h
      rw [← h.2]
      exact matchTimeAt_shape _ tm2 h1
    | none =>
      rw [h1] at h
      cases h2 : findTimeAux cs with
      | none => rw [h2] at h; simp at h
      | some pr =>
        rw [h2] at h
        cases pr with
        | mk i2 tm2 =>
          simp at h
          rw [← h.2]
          exact ih i2 tm2 h2

theorem classTitle_ne_empty (n : Nat) : ("Class " ++ toString (n + 1)) ≠ "" := by
  intro hc
  have := congrArg String.length hc
  simp [String.length_append] at this
  have h6 : ("Class " : String).length = 6 := by decide
  omega

theorem mk_ne_empty (cs : List Char) (h : cs ≠ []) : String.mk cs ≠ "" := by
  intro hc
  have := congrArg String.data hc
  simp at this
  exact h this

theorem processLine_sound (line : String) (n : Nat) (e : Entry)
    (h : processLine line n = some e) : goodEntry e := by
  unfold processLine at h
  split at h
  · simp at h
  · cases h1 : findTimeAux line.data with
    | none => rw [h1] at h; simp at h
    | some pr =>
      rw [h1] at h
      cases pr with
      | mk i tm =>
        simp only at h
        have he := Option.some.inj h
        subst he
        refine ⟨?_, ?_, ?_, ?_⟩
        · cases h2 : findDayAux none line.data with
          | none => simp [h2, canonicalDays]
          | some pr2 =>
            cases pr2 with
            | mk j o =>
              simp only [h2]
              rcases findDayAux_here line.data none j o h2 with ⟨cs₂, hc2⟩
              exact dayHereAt_canonical cs₂ o hc2
        · by_cases hr : (residualTitle line.data).isEmpty
          · simp only [hr, if_true]
            exact classTitle_ne_empty n
          · simp only [hr, if_false]
            refine mk_ne_empty _ ?_
            intro hnil
            rw [hnil] at hr
            simp at hr
        · exact (findTimeAux_shape line.data i tm h1).1
        · exact (findTimeAux_shape line.data i tm h1).2

theorem foldl_step_sound (lines : List String) : ∀ (acc : List Entry),
    (∀ e ∈ acc, goodEntry e) → ∀ e ∈ lines.foldl stepEntry acc, goodEntry e := by
  induction lines with
  | nil => intro acc hacc e he; exact hacc e he
  | cons line lines ih =>
    intro acc hacc e he
    simp only [List.foldl_cons] at he
    refine ih (stepEntry acc line) ?_ e he
    intro e2 he2
    unfold stepEntry at he2
    cases hp : processLine line acc.length with
    | none => rw [hp] at he2; exact hacc e2 he2
    | some e3 =>
      rw [hp] at he2
      rcases List.mem_append.mp he2 with h2 | h2
      · exact hacc e2 h2
      · simp at h2
        subst h2
        exact processLine_sound line acc.length e2 hp

theorem parseOCR_sound (s : String) : ∀ e ∈ parseOCRToTimetable s, goodEntry e := by
  intro e he
  exact foldl_step_sound (normalizeLines s) [] (by intro e2 he2; simp at he2) e he

theorem processLine_none_of_noTime (line : String) (n : Nat)
    (h : findTimeAux line.data = none) : processLine line n = none := by
  unfold processLine
  split
  · rfl
  · rw [h]

theorem processLine_none_of_noise (line : String) (n : Nat)
    (h : containsNoise line.data = true) : processLine line n = none := by
  unfold processLine
  rw [if_pos (by simp [h])]

theorem processLine_classTitle (line : String) (n : Nat) (e : Entry)
    (h : processLine line n = some e) (hr : residualTitle line.data = []) :
    e.title = "Class " ++ toString (n + 1) := by
  unfold processLine at h
  split at h
  · simp at h
  · cases h1 : findTimeAux line.data with
    | none => rw [h1] at h; simp at h
    | some pr =>
      rw [h1] at h
      cases pr with
      | mk i tm =>
        simp only [hr] at h
        have he := Option.some.inj h
        subst he
        rfl

theorem chainSelect_eq_find : ∀ os : List (Option JSVal),
    chainSelect os =
      (match os.find? truthyOpt with | some (some v) => v | _ => JSVal.arr []) := by
  intro os
  induction os with
  | nil => rfl
  | cons o os ih =>
    cases o with
    | none =>
      simp only [chainSelect, jsOrElse]
      rw [List.find?_cons_of_neg _ (by simp [truthyOpt])]
      exact ih
    | some v =>
      by_cases hv : truthy v = true
      · simp only [chainSelect, jsOrElse, hv, if_true]
        rw [List.find?_cons_of_pos _ (by simp [truthyOpt, hv])]
      · simp only [chainSelect, jsOrElse, hv, if_false]
        rw [List.find?_cons_of_neg _ (by simp [truthyOpt, hv])]
        exact ih

theorem selectResult_eq_spec (fields : List (String × JSVal)) :
    selectResult fields = specSelect fields := by
  have h : selectResult fields =
      chainSelect [jsGet fields "entries", jsGet fields "timetable",
        jsGet fields "schedule", jsGet fields "classes"] := rfl
  rw [h, chainSelect_eq_find]
  rfl

/-- C1 counterexample: a payload that passes the zod validation, combined with
a vision response that parses as `{"entries": []}`, makes the route return an
empty entry array — the empty array is truthy in the `||` chain, so it is
selected and returned rather than replaced. -/
theorem claimC1_counterexample :
    1 ≤ ("data:image/png;base64,AAAA" : String).length ∧
    ocrRoute "data:image/png;base64,AAAA"
      (.parsed [("entries", .arr [])]) = .ok (.arr []) := by
  constructor <;> decide

/-- C1 amended: a valid payload yields the non-empty six-entry fallback
whenever the vision stage throws (service error, missing content, or invalid
JSON); but when the vision response parses, the route returns the selected
value unvalidated, so the result can be an empty array. -/
theorem claimC1_amended (img : String) (h : 1 ≤ img.length) :
    (ocrRoute img .apiError = .ok (.arr fallbackEntries) ∧
     ocrRoute img .noContent = .ok (.arr fallbackEntries) ∧
     ocrRoute img .badJson = .ok (.arr fallbackEntries)) ∧
    fallbackEntries ≠ [] ∧
    (∀ fields, ocrRoute img (.parsed fields) = .ok (selectResult fields)) := by
  have hn : ¬ (img.length < 1) := by omega
  refine ⟨⟨?_, ?_, ?_⟩, by decide, ?_⟩
  · unfold ocrRoute; rw [if_neg hn]
  · unfold ocrRoute; rw [if_neg hn]
  · unfold ocrRoute; rw [if_neg hn]
  · intro fields; unfold ocrRoute; rw [if_neg hn]

/-- C1 witness: `claimC1_amended` instantiated at the one-character payload
`"d"`. -/
theorem claimC1_witness :
    (1 ≤ ("d" : String).length) ∧
    ((ocrRoute "d" .apiError = .ok (.arr fallbackEntries) ∧
      ocrRoute "d" .noContent = .ok (.arr fallbackEntries) ∧
      ocrRoute "d" .badJson = .ok (.arr fallbackEntries)) ∧
     fallbackEntries ≠ [] ∧
     (∀ fields, ocrRoute "d" (.parsed fields) = .ok (selectResult fields))) :=
  ⟨by decide, claimC1_amended "d" (by decide)⟩

/-- C2 counterexample: the heuristic parser accepts `09:61` as a start time
(its regex only demands `\d{1,2}:\d{2}`), which fails the spec's claimed
`^[0-2]?[0-9]:[0-5][0-9]$` format; and the vision stage returns entries
entirely unvalidated, here one with day `"Funday"`. -/
theorem claimC2_counterexample :
    parseOCRToTimetable "Monday 09:61-10:30 Calculus" =
      [mkEntry "Monday" "09:61" "10:30" "Calculus" ""] ∧
    specTimeFormat "09:61" = false ∧
    ocrRoute "d" (.parsed [("entries", .arr [mkEntry "Funday" "9" "x" "" ""])]) =
      .ok (.arr [mkEntry "Funday" "9" "x" "" ""]) ∧
    specEntryInvariant (mkEntry "Funday" "9" "x" "" "") = false := by
  refine ⟨by decide, by decide, by decide, by decide⟩

/-- C2 amended: every fallback entry satisfies the claimed invariant, and
every entry the heuristic parser produces has a canonical title-cased weekday,
a non-empty title, and `\d{1,2}:\d{2}` times (hour and minute values are not
range-checked); vision-stage entries are not validated at all. -/
theorem claimC2_amended :
    (∀ e ∈ fallbackEntries, specEntryInvariant e = true) ∧
    (∀ (s : String), ∀ e ∈ parseOCRToTimetable s,
      e.day ∈ canonicalDays ∧ e.title ≠ "" ∧
      looseTimeFormat e.startTime = true ∧ looseTimeFormat e.endTime = true) := by
  constructor
  · decide
  · intro s e he
    exact parseOCR_sound s e he

/-- C2 witness: `claimC2_amended` applied to the first fallback entry and to
the entry parsed from a concrete line. -/
theorem claimC2_witness :
    (mkEntry "Monday" "09:00" "10:30" "Mathematics" "Room 101" ∈ fallbackEntries ∧
     specEntryInvariant (mkEntry "Monday" "09:00" "10:30" "Mathematics" "Room 101") = true) ∧
    (mkEntry "Monday" "09:00" "10:30" "Calculus" "Room 101" ∈
        parseOCRToTimetable "Monday 09:00-10:30 Room 101 Calculus" ∧
      (mkEntry "Monday" "09:00" "10:30" "Calculus" "Room 101").day ∈ canonicalDays ∧
      (mkEntry "Monday" "09:00" "10:30" "Calculus" "Room 101").title ≠ "" ∧
      looseTimeFormat (mkEntry "Monday" "09:00" "10:30" "Calculus" "Room 101").startTime = true ∧
      looseTimeFormat (mkEntry "Monday" "09:00" "10:30" "Calculus" "Room 101").endTime = true) :=
  ⟨⟨by decide, claimC2_amended.1 _ (by decide)⟩,
   ⟨by decide, claimC2_amended.2 "Monday 09:00-10:30 Room 101 Calculus" _ (by decide)⟩⟩

/-- C3 counterexample: a vision response whose `entries` key holds an empty
array is returned to the caller as-is (an empty array is truthy in
JavaScript), not replaced by any fallback stage. -/
theorem claimC3_counterexample :
    ocrRoute "d" (.parsed [("entries", .arr [])]) = .ok (.arr []) ∧
    RouteResponse.ok (.arr []) ≠ .ok (.arr fallbackEntries) := by
  constructor <;> decide

/-- C3 amended: a present empty array under the `entries` key is treated as
the result and returned; the adapter advances to the fallback only when the
inner try block throws, never because the recognized key holds an empty
array. -/
theorem claimC3_amended (img : String) (fields : List (String × JSVal))
    (h : 1 ≤ img.length) (he : jsGet fields "entries" = some (.arr [])) :
    ocrRoute img (.parsed fields) = .ok (.arr []) := by
  unfold ocrRoute
  rw [if_neg (by omega)]
  simp only
  unfold selectResult
  rw [he]
  rfl

/-- C3 witness: `claimC3_amended` instantiated at a concrete payload and a
response with an empty `entries` array. -/
theorem claimC3_witness :
    (1 ≤ ("d" : String).length ∧
     jsGet [("entries", JSVal.arr [])] "entries" = some (.arr [])) ∧
    ocrRoute "d" (.parsed [("entries", JSVal.arr [])]) = .ok (.arr []) :=
  ⟨⟨by decide, by decide⟩,
   claimC3_amended "d" [("entries", JSVal.arr [])] (by decide) (by decide)⟩

/-- C4: when the vision stage throws, the route answers with the hardcoded
six-entry fallback list directly, although the heuristic line parser — run on
the OCR text the claim describes — would have produced a single Calculus
entry; no second extraction stage exists in the route. -/
theorem claimC4_theorem :
    ocrRoute "data:image/png;base64,AAAB" .apiError = .ok (.arr fallbackEntries) ∧
    parseOCRToTimetable "Monday 09:00-10:30 Room 101 Calculus" =
      [mkEntry "Monday" "09:00" "10:30" "Calculus" "Room 101"] ∧
    fallbackEntries ≠ [mkEntry "Monday" "09:00" "10:30" "Calculus" "Room 101"] := by
  refine ⟨by decide, by decide, by decide⟩

/-- C5: whenever the vision stage fails entirely — the service call throws,
the response content is missing, or the content is not valid JSON — the route
returns the fixed six-entry fallback set, whose first entry is exactly the
Monday 09:00–10:30 Mathematics Room 101 entry. -/
theorem claimC5_theorem (img : String) (h : 1 ≤ img.length) :
    (ocrRoute img .apiError = .ok (.arr fallbackEntries) ∧
     ocrRoute img .badJson = .ok (.arr fallbackEntries) ∧
     ocrRoute img .noContent = .ok (.arr fallbackEntries)) ∧
    fallbackEntries.length = 6 ∧
    fallbackEntries.head? = some (mkEntry "Monday" "09:00" "10:30" "Mathematics" "Room 101") := by
  have hn : ¬ (img.length < 1) := by omega
  refine ⟨⟨?_, ?_, ?_⟩, by decide, by decide⟩ <;> (unfold ocrRoute; rw [if_neg hn])

/-- C5 witness: `claimC5_theorem` instantiated at the one-character payload
`"d"`. -/
theorem claimC5_witness :
    (1 ≤ ("d" : String).length) ∧
    ((ocrRoute "d" .apiError = .ok (.arr fallbackEntries) ∧
      ocrRoute "d" .badJson = .ok (.arr fallbackEntries) ∧
      ocrRoute "d" .noContent = .ok (.arr fallbackEntries)) ∧
     fallbackEntries.length = 6 ∧
     fallbackEntries.head? = some (mkEntry "Monday" "09:00" "10:30" "Mathematics" "Room 101")) :=
  ⟨by decide, claimC5_theorem "d" (by decide)⟩

/-- C6: on the single input line `Monday 09:00-10:30 Room 101 Calculus` the
heuristic parser produces exactly one entry, with the time range, day and
location extracted and `Calculus` left as the title after stripping and
trimming. -/
theorem claimC6_theorem :
    parseOCRToTimetable "Monday 09:00-10:30 Room 101 Calculus" =
      [mkEntry "Monday" "09:00" "10:30" "Calculus" "Room 101"] := by decide

/-- C7: a line on which the time-range extractor finds no match never yields
an entry, and in particular the input `Room 101` parses to an empty batch. -/
theorem claimC7_theorem :
    (∀ (line : String) (n : Nat), findTimeAux line.data = none → processLine line n = none) ∧
    parseOCRToTimetable "Room 101" = [] := by
  constructor
  · intro line n h
    exact processLine_none_of_noTime line n h
  · decide

/-- C7 witness: the first part of `claimC7_theorem` applied to a concrete line
with no time range. -/
theorem claimC7_witness :
    findTimeAux ("Hello world" : String).data = none ∧ processLine "Hello world" 0 = none :=
  ⟨by decide, claimC7_theorem.1 "Hello world" 0 (by decide)⟩

/-- C8: when a line's text is fully consumed by the extractors (empty trimmed
remainder), the synthesized title is `Class N` with N one more than the number
of entries already produced; two identical fully-consumed lines get titles
`Class 1` and `Class 2` in input order. -/
theorem claimC8_theorem :
    (∀ (line : String) (n : Nat) (e : Entry), processLine line n = some e →
      residualTitle line.data = [] → e.title = "Class " ++ toString (n + 1)) ∧
    parseOCRToTimetable "Monday 09:00-10:30 Room 101\nMonday 09:00-10:30 Room 101" =
      [mkEntry "Monday" "09:00" "10:30" "Class 1" "Room 101",
       mkEntry "Monday" "09:00" "10:30" "Class 2" "Room 101"] := by
  constructor
  · intro line n e h hr
    exact processLine_classTitle line n e h hr
  · decide

/-- C8 witness: the first part of `claimC8_theorem` applied to a concrete
fully-consumed line at batch position 0. -/
theorem claimC8_witness :
    (processLine "Monday 09:00-10:30 Room 101" 0 =
      some (mkEntry "Monday" "09:00" "10:30" "Class 1" "Room 101") ∧
     residualTitle ("Monday 09:00-10:30 Room 101" : String).data = []) ∧
    (mkEntry "Monday" "09:00" "10:30" "Class 1" "Room 101").title = "Class " ++ toString (0 + 1) :=
  ⟨⟨by decide, by decide⟩,
   claimC8_theorem.1 "Monday 09:00-10:30 Room 101" 0 _ (by decide) (by decide)⟩

/-- C9 counterexample: the `||` chain selects by truthiness, not by being an
array — a non-empty string under `entries` is returned even though it is not
an array — and an unparseable payload produces the six-entry fallback, not an
empty array. -/
theorem claimC9_counterexample :
    selectResult [("entries", .str "oops")] = .str "oops" ∧
    isArr (selectResult [("entries", .str "oops")]) = false ∧
    ocrRoute "d" .badJson = .ok (.arr fallbackEntries) ∧
    RouteResponse.ok (.arr fallbackEntries) ≠ .ok (.arr []) := by
  refine ⟨by decide, by decide, by decide, by decide⟩

/-- C9 amended: the adapter checks `entries`, `timetable`, `schedule`,
`classes` in that order and uses the first whose value is present and truthy
(any array, any object, non-empty string, non-zero number, or `true`),
defaulting to an empty array when all are absent or falsy; an unparseable
payload instead makes the route return the six-entry fallback. -/
theorem claimC9_amended :
    (∀ fields, selectResult fields = specSelect fields) ∧
    (∀ img : String, 1 ≤ img.length → ocrRoute img .badJson = .ok (.arr fallbackEntries)) := by
  constructor
  · exact selectResult_eq_spec
  · intro img h
    unfold ocrRoute
    rw [if_neg (by omega)]

/-- C9 witness: `claimC9_amended` instantiated at a concrete response and a
concrete payload. -/
theorem claimC9_witness :
    selectResult [("schedule", JSVal.arr [])] = specSelect [("schedule", JSVal.arr [])] ∧
    (1 ≤ ("d" : String).length ∧ ocrRoute "d" .badJson = .ok (.arr fallbackEntries)) :=
  ⟨claimC9_amended.1 _, by decide, claimC9_amended.2 "d" (by decide)⟩

/-- C10: any line containing `header`, `table` or `schedule`
(case-insensitive) is skipped by the heuristic parser, even when it also
carries a valid time range, weekday and title, as in
`Schedule Monday 09:00-10:30 Calculus`. -/
theorem claimC10_theorem :
    (∀ (line : String) (n : Nat), containsNoise line.data = true → processLine line n = none) ∧
    parseOCRToTimetable "Schedule Monday 09:00-10:30 Calculus" = [] := by
  constructor
  · intro line n h
    exact processLine_none_of_noise line n h
  · decide

/-- C10 witness: the first part of `claimC10_theorem` applied to the concrete
noise line. -/
theorem claimC10_witness :
    containsNoise ("Schedule Monday 09:00-10:30 Calculus" : String).data = true ∧
    processLine "Schedule Monday 09:00-10:30 Calculus" 0 = none :=
  ⟨by decide, claimC10_theorem.1 "Schedule Monday 09:00-10:30 Calculus" 0 (by decide)⟩
